import Mathlib

/-!
Verification of the schema converter in
`merlin/graph/schema_io/tensorflow_metadata.py`: the pair of mappings
between the internal Merlin column-schema model and the external
TensorFlow-metadata style feature model.

Python dictionaries with string keys are embedded as ordered association
lists (`PropsMap`), JSON-like property values as the inductive `PropValue`,
and fallible Python code (code that can raise) as `Except String`.
Protobuf `Struct` packing/unpacking of a property mapping into the opaque
`Any` payload is treated as the lossless structured-value codec the design
describes; the `ExtraMetadata.packed` constructor carries the mapping that
the serialized bytes encode.
-/

/-- Values of the JSON-like property mapping carried by a column schema:
Python `None`, booleans, numbers (modelled as integers; no arithmetic is
ever performed on them, they are only stored, compared and copied),
strings, and nested string-keyed mappings. -/
inductive PropValue where
  | vNull : PropValue
  | vBool (b : Bool) : PropValue
  | vInt (n : Int) : PropValue
  | vStr (s : String) : PropValue
  | vMap (m : List (String × PropValue)) : PropValue
deriving Repr

mutual

/-- Structural boolean equality on property values. -/
def pvBeq : PropValue → PropValue → Bool
  | .vNull, .vNull => true
  | .vBool a, .vBool b => a == b
  | .vInt a, .vInt b => a == b
  | .vStr a, .vStr b => a == b
  | .vMap a, .vMap b => pmBeq a b
  | _, _ => false

/-- Structural boolean equality on property mappings. -/
def pmBeq : List (String × PropValue) → List (String × PropValue) → Bool
  | [], [] => true
  | (k1, v1) :: t1, (k2, v2) :: t2 => k1 == k2 && pvBeq v1 v2 && pmBeq t1 t2
  | _, _ => false

end

instance : BEq PropValue := ⟨pvBeq⟩

/-- An ordered string-keyed mapping, embedding a Python `dict`
(insertion-ordered, unique keys maintained by the update operation). -/
abbrev PropsMap := List (String × PropValue)

/-- Lookup of the first (in a well-formed dict: the only) binding of a key,
embedding `d[k]` / `d.get(k)`. -/
def mget (m : PropsMap) (k : String) : Option PropValue :=
  match m with
  | [] => none
  | (k', v) :: rest => if k' = k then some v else mget rest k

/-- Embeds Python dict assignment `d[k] = v`: replaces the value in place
when the key is present, otherwise appends the new binding. -/
def setKey (m : PropsMap) (k : String) (v : PropValue) : PropsMap :=
  match m with
  | [] => [(k, v)]
  | (k', v') :: rest =>
      if k' = k then (k', v) :: rest else (k', v') :: setKey rest k v

/-- Embeds Python `d.pop(k, default)`: returns the removed value (if any)
and the mapping without that binding. -/
def popKey (m : PropsMap) (k : String) : Option PropValue × PropsMap :=
  match m with
  | [] => (none, [])
  | (k', v) :: rest =>
      if k' = k then (some v, rest)
      else
        let (r, rest') := popKey rest k
        (r, (k', v) :: rest')

/-- Python truthiness of a property value (`bool(v)`). -/
def pvTruthy : PropValue → Bool
  | .vNull => false
  | .vBool b => b
  | .vInt n => n != 0
  | .vStr s => s ≠ ""
  | .vMap m => !m.isEmpty

/-- Python truthiness of a value that may be absent (`None` when missing). -/
def pvTruthyO : Option PropValue → Bool
  | none => false
  | some v => pvTruthy v

/-- The numeric interpretation Python gives a value in arithmetic
comparisons: ints are themselves and bools are 0/1; other values have
none. -/
def pvNum : PropValue → Option Int
  | .vInt n => some n
  | .vBool b => some (if b then 1 else 0)
  | _ => none

/-- Python `==` on property values: numeric values compare numerically,
otherwise structural equality (Python compares dicts by contents; key
order never differs between the mappings this code compares). `==` never
raises. -/
def pvEq (a b : PropValue) : Bool :=
  match pvNum a, pvNum b with
  | some x, some y => x == y
  | _, _ => a == b

/-- Python `<` on property values: defined for two numbers or two strings,
a `TypeError` otherwise. -/
def pvLt (a b : PropValue) : Except String Bool :=
  match pvNum a, pvNum b with
  | some x, some y => .ok (x < y)
  | _, _ =>
      match a, b with
      | .vStr x, .vStr y => .ok (decide (x < y))
      | _, _ => .error "TypeError: unorderable types"

/-- Modelled from the spec: the internal tag enumeration (`merlin/graph/tags.py`
is not part of the converter source). Only the values the converter
consults are needed; each enum member exposes a string `value`. -/
inductive Tags where
  | CATEGORICAL : Tags
  | CONTINUOUS : Tags
  | LIST : Tags
  | TARGET : Tags
deriving DecidableEq, Repr

/-- String value of a tag enum member (`tag.value`). -/
def Tags.value : Tags → String
  | .CATEGORICAL => "categorical"
  | .CONTINUOUS => "continuous"
  | .LIST => "list"
  | .TARGET => "target"

/-- A tag as stored on an internal column: either an enum member (which has
a `.value` attribute) or a raw string (which does not). -/
inductive TagLike where
  | enum (t : Tags) : TagLike
  | raw (s : String) : TagLike
deriving DecidableEq, Repr

/-- Modelled from the spec: a column dtype as the converter's
`_dtype_name` classifier sees it. The four naming strategies of
`_dtype_name` (numpy `kind` name, scalar `item` type name, a plain string,
a type `__name__`) all produce a name string, collapsed here into `named`;
a descriptor supporting none of them (for example Python `None`) is
`unnamed` and makes `_dtype_name` raise `TypeError`. -/
inductive DType where
  | named (s : String) : DType
  | unnamed : DType
deriving DecidableEq, Repr

/-- Modelled from the spec: the internal column descriptor
(`merlin/graph/schema.py` is not part of the converter source): name, tags,
free-form property mapping, dtype, and the list/ragged flags. The flags
hold the raw stored values (the source stores whatever was passed for
`_is_list` / `_is_ragged` and tests them by truthiness). -/
structure ColumnSchema where
  name : String
  tags : List TagLike
  properties : PropsMap
  dtype : DType
  is_list : PropValue := .vBool false
  is_ragged : PropValue := .vBool false
deriving Repr

/-- Modelled from the spec: the internal schema, a keyed collection of
column descriptors (an insertion-ordered mapping name to column). -/
structure MerlinSchema where
  column_schemas : List (String × ColumnSchema) := []
deriving Repr

/-- The external feature type enumeration. -/
inductive FeatureType where
  | UNDEFINED : FeatureType
  | BYTES : FeatureType
  | INT : FeatureType
  | FLOAT : FeatureType
  | STRUCT : FeatureType
deriving DecidableEq, Repr

/-- The external integer domain message. `min`/`max` hold whatever
`domain.get("min"/"max", None)` produced (`vNull` when the bound was
absent or null, matching Python where both collapse to `None`). -/
structure IntDomain where
  name : String
  min : PropValue := .vNull
  max : PropValue := .vNull
  is_categorical : Bool := false
deriving Repr

/-- The external float domain message: name and bounds only, no
categorical flag exists on this message type. -/
structure FloatDomain where
  name : String
  min : PropValue := .vNull
  max : PropValue := .vNull
deriving Repr

/-- The external fixed-shape message; the source passes the length
positionally into the first field. -/
structure FixedShape where
  dim : PropValue
deriving Repr

/-- The external value-count message with its min/max bounds. -/
structure ValueCount where
  min : PropValue := .vInt 0
  max : PropValue := .vInt 0
deriving Repr

/-- The shape oneof of a feature: unset, a fixed shape, or a value-count
range. -/
inductive ShapeField where
  | unset : ShapeField
  | shape (s : FixedShape) : ShapeField
  | value_count (v : ValueCount) : ShapeField
deriving Repr

/-- A legacy untyped extension entry whose raw `value` is (treated as) a
property mapping. -/
structure UntypedEntry where
  value : PropsMap
deriving Repr

/-- The extension slot of a feature's annotation block: either the
recognized opaque typed container (a `schema_bp.Any` whose bytes encode a
protobuf `Struct`; modelled by the mapping those bytes encode, plus the
container's type url), or a list of untyped entries (the deserialized
wire form). -/
inductive ExtraMetadata where
  | packed (type_url : String) (props : PropsMap) : ExtraMetadata
  | entries (es : List UntypedEntry) : ExtraMetadata
deriving Repr

/-- The annotation block of a feature: an ordered tag list and the
extension slot. (Named `Annot` here; the source's name for this message
cannot be used as a Lean identifier in this development.) -/
structure Annot where
  tag : List String := []
  extra_metadata : ExtraMetadata := .entries []
deriving Repr

/-- The external feature record. Optional domain sub-messages model the
protobuf presence semantics that `proto_utils.has_field` checks. -/
structure Feature where
  name : String
  type : FeatureType := .UNDEFINED
  int_domain : Option IntDomain := none
  float_domain : Option FloatDomain := none
  shapeField : ShapeField := .unset
  annot : Annot := {}
deriving Repr

/-- The external schema message: an ordered sequence of features. -/
structure ProtoSchema where
  feature : List Feature := []
deriving Repr

/-- The dtype-name to feature-type table `FEATURE_TYPES` of the source:
int and uint map to INT, float maps to FLOAT, anything else is absent. -/
def FEATURE_TYPES (s : String) : Option FeatureType :=
  if s = "int" then some .INT
  else if s = "uint" then some .INT
  else if s = "float" then some .FLOAT
  else none

/-- Embeds `_dtype_name`: produces the dtype's name, or raises `TypeError`
for a descriptor that supports none of the naming strategies. -/
def dtype_name (cs : ColumnSchema) : Except String String :=
  match cs.dtype with
  | .named s => .ok s
  | .unnamed => .error ("TypeError: unsupported dtype for column schema")

/-- Embeds `pb_int_domain`: `None` when no (or a null) `domain` property is
present, otherwise an `IntDomain` with the mapping's bounds and the
categorical flag; a non-mapping `domain` value raises (`.get` on a
non-dict). -/
def pb_int_domain (cs : ColumnSchema) : Except String (Option IntDomain) :=
  match mget cs.properties "domain" with
  | none => .ok none
  | some .vNull => .ok none
  | some (.vMap m) =>
      .ok (some
        { name := cs.name
          min := (mget m "min").getD .vNull
          max := (mget m "max").getD .vNull
          is_categorical :=
            cs.tags.contains (.enum .CATEGORICAL)
              || cs.tags.contains (.raw Tags.CATEGORICAL.value) })
  | some _ => .error "AttributeError: domain value has no attribute get"

/-- Embeds `pb_float_domain`: as `pb_int_domain` but building a
`FloatDomain`, which has no categorical flag. -/
def pb_float_domain (cs : ColumnSchema) : Except String (Option FloatDomain) :=
  match mget cs.properties "domain" with
  | none => .ok none
  | some .vNull => .ok none
  | some (.vMap m) =>
      .ok (some
        { name := cs.name
          min := (mget m "min").getD .vNull
          max := (mget m "max").getD .vNull })
  | some _ => .error "AttributeError: domain value has no attribute get"

/-- Embeds `set_feature_domain`: classify the dtype via `_dtype_name` and
`FEATURE_TYPES`; when a feature type is found, set it and attach the
matching domain sub-message when the domain constructor produced one;
when no feature type is found the feature is returned untouched. -/
def set_feature_domain (f : Feature) (cs : ColumnSchema) :
    Except String Feature := do
  let nm ← dtype_name cs
  match FEATURE_TYPES nm with
  | none => .ok f
  | some ft =>
      match ft with
      | .INT => do
          let d ← pb_int_domain cs
          match d with
          | some dom => .ok { f with type := ft, int_domain := some dom }
          | none => .ok { f with type := ft }
      | .FLOAT => do
          let d ← pb_float_domain cs
          match d with
          | some dom => .ok { f with type := ft, float_domain := some dom }
          | none => .ok { f with type := ft }
      | _ => .error "KeyError: DOMAIN_ATTRS"

/-- Embeds `pb_tag`: each tag normalized to its string value (`tag.value`
for an enum member, the string itself otherwise), order preserved. -/
def pb_tag (cs : ColumnSchema) : List String :=
  cs.tags.map fun t =>
    match t with
    | .enum e => e.value
    | .raw s => s

/-- The type url the protobuf `Any.Pack` of a `Struct` produces. -/
def structTypeUrl : String := "type.googleapis.com/google.protobuf.Struct"

/-- Embeds `pb_extra_metadata`: every property except the reserved
`domain` key, with the raw `is_list` / `is_ragged` values written in,
serialized into a `Struct` and packed into the typed `Any` container
(modelled by `ExtraMetadata.packed` carrying the mapping the bytes
encode). -/
def pb_extra_metadata (cs : ColumnSchema) : ExtraMetadata :=
  let properties := cs.properties.filter fun kv => kv.1 ≠ "domain"
  let properties := setKey properties "is_list" cs.is_list
  let properties := setKey properties "is_ragged" cs.is_ragged
  .packed structTypeUrl properties

/-- The shape-setting block of `pb_feature` (the body of its
`if column_schema._is_list:` statement, named here so the stage can be
reasoned about on its own): read the `value_count` property mapping
(default empty; a non-mapping value raises at `.get`), then encode a
fixed shape when min and max are truthy and equal, a value-count range
when truthy with min below max, and the `{0, 0}` sentinel otherwise. -/
def pb_feature_shape (feature : Feature) (cs : ColumnSchema) :
    Except String Feature :=
  if pvTruthy cs.is_list then do
    let vc ←
      match mget cs.properties "value_count" with
      | none => Except.ok ([] : PropsMap)
      | some (.vMap m) => Except.ok m
      | some _ =>
          Except.error "AttributeError: value_count value has no attribute get"
    let min_length := mget vc "min"
    let max_length := mget vc "max"
    if pvTruthyO min_length && pvTruthyO max_length then
      let a := min_length.getD .vNull
      let b := max_length.getD .vNull
      if pvEq a b then
        pure { feature with shapeField := .shape ⟨a⟩ }
      else do
        let lt ← pvLt a b
        if lt then
          pure { feature with shapeField := .value_count ⟨a, b⟩ }
        else
          pure { feature with shapeField := .value_count ⟨.vInt 0, .vInt 0⟩ }
    else
      pure { feature with shapeField := .value_count ⟨.vInt 0, .vInt 0⟩ }
  else
    pure feature

/-- Embeds `pb_feature`: build the feature, set type and domain, encode the
list length constraints into the shape oneof for a (truthy) list column,
and attach the annotation block. -/
def pb_feature (cs : ColumnSchema) : Except String Feature := do
  let feature : Feature := { name := cs.name }
  let feature ← set_feature_domain feature cs
  let feature ← pb_feature_shape feature cs
  .ok { feature with
        annot := { tag := pb_tag cs, extra_metadata := pb_extra_metadata cs } }

/-- Embeds `TensorflowMetadata.from_merlin_schema` (the `from_internal`
direction): one feature per column, in the internal schema's iteration
order. -/
def from_merlin_schema (s : MerlinSchema) : Except String ProtoSchema := do
  let features ← s.column_schemas.mapM fun kv => pb_feature kv.2
  .ok { feature := features }

/-- Embeds `merlin_domain`: read the domain sub-message matching the
feature's type (via `DOMAIN_ATTRS` and the presence check) back into a
`{min, max}` mapping; empty when no matching domain is present. -/
def merlin_domain (f : Feature) : PropsMap :=
  match f.type with
  | .INT =>
      match f.int_domain with
      | some d => [("min", d.min), ("max", d.max)]
      | none => []
  | .FLOAT =>
      match f.float_domain with
      | some d => [("min", d.min), ("max", d.max)]
      | none => []
  | _ => []

/-- The error message raised for a malformed extension slot; it leads with
the offending feature's name. -/
def extraMetadataErr (featureName : String) (n : Nat) : String :=
  featureName ++ ": extra_metadata should have 1 item, has " ++ toString n

/-- Embeds `merlin_properties`: the recognized typed container is
unwrapped into its mapping; otherwise more than one untyped entry raises,
exactly one has its raw value taken as the mapping, and zero gives the
empty mapping; finally a non-empty reconstructed domain is written in
under the `domain` key. -/
def merlin_properties (f : Feature) : Except String PropsMap := do
  let properties ←
    match f.annot.extra_metadata with
    | .packed _ props => pure props
    | .entries es =>
        if es.length > 1 then
          Except.error (extraMetadataErr f.name es.length)
        else if es.length = 1 then
          pure (es.headD ⟨[]⟩).value
        else
          pure ([] : PropsMap)
  let domain := merlin_domain f
  if !domain.isEmpty then
    pure (setKey properties "domain" (.vMap domain))
  else
    pure properties

/-- Embeds `merlin_dtype`: INT becomes the generic integer dtype
(`numpy.int`, whose `__name__` is `int`), FLOAT the generic float dtype;
any other feature type yields Python `None`, a descriptor with no naming
strategy. -/
def merlin_dtype (f : Feature) : DType :=
  match f.type with
  | .INT => .named "int"
  | .FLOAT => .named "float"
  | _ => .unnamed

/-- Embeds `merlin_column`: name, tags copied verbatim as raw strings,
properties from the extension slot and domain, dtype from the feature
type, and the `is_list` / `is_ragged` values popped back out of the
properties (default false). -/
def merlin_column (f : Feature) : Except String ColumnSchema := do
  let tags := f.annot.tag
  let properties ← merlin_properties f
  let (vl, properties) := popKey properties "is_list"
  let (vr, properties) := popKey properties "is_ragged"
  .ok { name := f.name
        tags := tags.map TagLike.raw
        properties := properties
        dtype := merlin_dtype f
        is_list := vl.getD (.vBool false)
        is_ragged := vr.getD (.vBool false) }

/-- The observable state of the input feature after `merlin_column` ran on
it. In the legacy single-untyped-entry branch of `merlin_properties` the
returned mapping is the entry's own `value` object, so the later in-place
updates — writing the reconstructed `domain` in and popping `is_list` /
`is_ragged` out — mutate the input feature through that alias; in every
other branch the mapping is freshly built and the input is untouched. -/
def merlin_column_post (f : Feature) : Except String Feature := do
  let properties ← merlin_properties f
  let (_, properties) := popKey properties "is_list"
  let (_, properties) := popKey properties "is_ragged"
  match f.annot.extra_metadata with
  | .entries [_] =>
      .ok { f with annot :=
            { f.annot with extra_metadata := .entries [⟨properties⟩] } }
  | _ => .ok f

/-- Embeds Python dict assignment on the internal schema's column mapping
(`merlin_schema.column_schemas[name] = col`). -/
def setKeyCS (m : List (String × ColumnSchema)) (k : String)
    (v : ColumnSchema) : List (String × ColumnSchema) :=
  match m with
  | [] => [(k, v)]
  | (k', v') :: rest =>
      if k' = k then (k', v) :: rest else (k', v') :: setKeyCS rest k v

/-- Lookup in the internal schema's column mapping. -/
def mgetCS (m : List (String × ColumnSchema)) (k : String) :
    Option ColumnSchema :=
  match m with
  | [] => none
  | (k', v) :: rest => if k' = k then some v else mgetCS rest k

/-- Embeds `TensorflowMetadata.to_merlin_schema` (the `to_internal`
direction): one column per feature in wire order, inserted into the
column mapping keyed by the column's name (dict assignment, so a
duplicate name overwrites the earlier entry). -/
def to_merlin_schema (ps : ProtoSchema) : Except String MerlinSchema := do
  let cols ← ps.feature.foldlM
    (fun acc f => do
      let col ← merlin_column f
      pure (setKeyCS acc col.name col))
    ([] : List (String × ColumnSchema))
  .ok { column_schemas := cols }

theorem mget_setKey (m : PropsMap) (k k' : String) (v : PropValue) :
    mget (setKey m k v) k' = if k = k' then some v else mget m k' := by
  induction m with
  | nil => by_cases h : k = k' <;> simp [setKey, mget, h]
  | cons kv rest ih =>
      obtain ⟨k0, v0⟩ := kv
      by_cases h0 : k0 = k
      · by_cases h : k = k' <;> simp [setKey, mget, h0, h, h0.symm ▸ h]
      · simp only [setKey, if_neg h0, mget]
        by_cases h1 : k0 = k'
        · have : ¬ k = k' := fun hk => h0 (h1.trans hk.symm)
          simp [h1, this]
        · simp [h1, ih]

theorem popKey_fst (m : PropsMap) (k : String) :
    (popKey m k).1 = mget m k := by
  induction m with
  | nil => simp [popKey, mget]
  | cons kv rest ih =>
      obtain ⟨k0, v0⟩ := kv
      by_cases h0 : k0 = k <;> simp [popKey, mget, h0, ih]

theorem mget_popKey_snd (m : PropsMap) (k k' : String) (h : k ≠ k') :
    mget (popKey m k).2 k' = mget m k' := by
  induction m with
  | nil => simp [popKey]
  | cons kv rest ih =>
      obtain ⟨k0, v0⟩ := kv
      by_cases h0 : k0 = k
      · subst h0
        simp [popKey, mget, h]
      · simp [popKey, mget, h0]
        by_cases h1 : k0 = k' <;> simp [h1, ih]

theorem mget_filter_ne (m : PropsMap) (kd k : String) (h : k ≠ kd) :
    mget (m.filter fun kv => kv.1 ≠ kd) k = mget m k := by
  induction m with
  | nil => simp [mget]
  | cons kv rest ih =>
      obtain ⟨k0, v0⟩ := kv
      simp only [ne_eq, decide_not] at ih
      by_cases h0 : k0 = kd
      · subst h0
        have h2 : ¬ k0 = k := fun hk => h hk.symm
        rw [List.filter_cons]
        simp [mget, h2, ih]
      · rw [List.filter_cons]
        by_cases h1 : k0 = k <;> simp [mget, h, h0, h1, ih]

theorem mgetCS_setKeyCS (m : List (String × ColumnSchema)) (k k' : String)
    (v : ColumnSchema) :
    mgetCS (setKeyCS m k v) k' = if k = k' then some v else mgetCS m k' := by
  induction m with
  | nil => by_cases h : k = k' <;> simp [setKeyCS, mgetCS, h]
  | cons kv rest ih =>
      obtain ⟨k0, v0⟩ := kv
      by_cases h0 : k0 = k
      · by_cases h : k = k' <;> simp [setKeyCS, mgetCS, h0, h, h0.symm ▸ h]
      · simp only [setKeyCS, if_neg h0, mgetCS]
        by_cases h1 : k0 = k'
        · have : ¬ k = k' := fun hk => h0 (h1.trans hk.symm)
          simp [h1, this]
        · simp [h1, ih]

theorem except_bind_ok {α β ε : Type} (a : α) (f : α → Except ε β) :
    (Except.ok a >>= f) = f a := rfl

theorem except_bind_err {α β ε : Type} (e : ε) (f : α → Except ε β) :
    ((Except.error e : Except ε α) >>= f) = Except.error e := rfl

theorem except_pure_eq {α ε : Type} (a : α) :
    (pure a : Except ε α) = Except.ok a := rfl

theorem set_feature_domain_fields (f : Feature) (cs : ColumnSchema)
    (g : Feature) (h : set_feature_domain f cs = .ok g) :
    g.name = f.name ∧ g.shapeField = f.shapeField ∧ g.annot = f.annot := by
  unfold set_feature_domain at h
  cases hd : cs.dtype with
  | unnamed => simp [dtype_name, hd, except_bind_err] at h
  | named s =>
      simp only [dtype_name, hd, except_bind_ok] at h
      cases hft : FEATURE_TYPES s with
      | none =>
          simp only [hft] at h
          cases h
          exact ⟨rfl, rfl, rfl⟩
      | some ft =>
          simp only [hft] at h
          cases ft with
          | INT =>
              cases hdom : pb_int_domain cs with
              | error e => simp [hdom, except_bind_err] at h
              | ok d =>
                  simp only [hdom, except_bind_ok] at h
                  cases d with
                  | none => cases h; exact ⟨rfl, rfl, rfl⟩
                  | some dom => cases h; exact ⟨rfl, rfl, rfl⟩
          | FLOAT =>
              cases hdom : pb_float_domain cs with
              | error e => simp [hdom, except_bind_err] at h
              | ok d =>
                  simp only [hdom, except_bind_ok] at h
                  cases d with
                  | none => cases h; exact ⟨rfl, rfl, rfl⟩
                  | some dom => cases h; exact ⟨rfl, rfl, rfl⟩
          | UNDEFINED => cases h
          | BYTES => cases h
          | STRUCT => cases h

theorem pb_feature_shape_fields (f : Feature) (cs : ColumnSchema)
    (g : Feature) (h : pb_feature_shape f cs = .ok g) :
    g.name = f.name ∧ g.type = f.type ∧ g.int_domain = f.int_domain
      ∧ g.float_domain = f.float_domain ∧ g.annot = f.annot := by
  unfold pb_feature_shape at h
  by_cases hl : pvTruthy cs.is_list
  · simp only [hl, if_true] at h
    have step :
        ∀ vc : PropsMap,
          (do
            let min_length := mget vc "min"
            let max_length := mget vc "max"
            if pvTruthyO min_length && pvTruthyO max_length then
              let a := min_length.getD .vNull
              let b := max_length.getD .vNull
              if pvEq a b then
                pure { f with shapeField := .shape ⟨a⟩ }
              else do
                let lt ← pvLt a b
                if lt then
                  pure { f with shapeField := .value_count ⟨a, b⟩ }
                else
                  pure { f with shapeField := .value_count ⟨.vInt 0, .vInt 0⟩ }
            else
              pure { f with shapeField := .value_count ⟨.vInt 0, .vInt 0⟩ }
            : Except String Feature) = .ok g →
          g.name = f.name ∧ g.type = f.type ∧ g.int_domain = f.int_domain
            ∧ g.float_domain = f.float_domain ∧ g.annot = f.annot := by
      intro vc hh
      by_cases h1 : pvTruthyO (mget vc "min") && pvTruthyO (mget vc "max")
      · simp only [h1, if_true] at hh
        by_cases h2 : pvEq ((mget vc "min").getD .vNull) ((mget vc "max").getD .vNull)
        · simp only [h2, if_true, except_pure_eq] at hh
          cases hh
          exact ⟨rfl, rfl, rfl, rfl, rfl⟩
        · simp only [h2, if_false, Bool.false_eq_true] at hh
          cases hlt : pvLt ((mget vc "min").getD .vNull) ((mget vc "max").getD .vNull) with
          | error e => simp [hlt, except_bind_err] at hh
          | ok b =>
              simp only [hlt, except_bind_ok] at hh
              cases b with
              | true =>
                  simp only [if_true, except_pure_eq] at hh
                  cases hh
                  exact ⟨rfl, rfl, rfl, rfl, rfl⟩
              | false =>
                  simp only [Bool.false_eq_true, if_false, except_pure_eq] at hh
                  cases hh
                  exact ⟨rfl, rfl, rfl, rfl, rfl⟩
      · simp only [h1, Bool.false_eq_true, if_false, except_pure_eq] at hh
        cases hh
        exact ⟨rfl, rfl, rfl, rfl, rfl⟩
    cases hvc : mget cs.properties "value_count" with
    | none =>
        simp only [hvc, except_bind_ok] at h
        exact step [] h
    | some v =>
        cases v with
        | vMap m =>
            simp only [hvc, except_bind_ok] at h
            exact step m h
        | vNull => simp [hvc, except_bind_err] at h
        | vBool b => simp [hvc, except_bind_err] at h
        | vInt n => simp [hvc, except_bind_err] at h
        | vStr s => simp [hvc, except_bind_err] at h
  · simp only [hl, Bool.false_eq_true, if_false, except_pure_eq] at h
    cases h
    exact ⟨rfl, rfl, rfl, rfl, rfl⟩

theorem pb_feature_ok_elim (cs : ColumnSchema) (g : Feature)
    (h : pb_feature cs = .ok g) :
    ∃ f1 f2, set_feature_domain { name := cs.name } cs = .ok f1
      ∧ pb_feature_shape f1 cs = .ok f2
      ∧ g = { f2 with
              annot := { tag := pb_tag cs,
                         extra_metadata := pb_extra_metadata cs } } := by
  unfold pb_feature at h
  cases h1 : set_feature_domain { name := cs.name } cs with
  | error e => simp [h1, except_bind_err] at h
  | ok f1 =>
      simp only [h1, except_bind_ok] at h
      cases h2 : pb_feature_shape f1 cs with
      | error e => simp [h2, except_bind_err] at h
      | ok f2 =>
          simp only [h2, except_bind_ok] at h
          cases h
          refine ⟨f1, f2, ?_, ?_, rfl⟩ <;> simp [h1, h2]

theorem pb_feature_ok_intro (cs : ColumnSchema) (f1 f2 : Feature)
    (h1 : set_feature_domain { name := cs.name } cs = .ok f1)
    (h2 : pb_feature_shape f1 cs = .ok f2) :
    pb_feature cs = .ok { f2 with
      annot := { tag := pb_tag cs, extra_metadata := pb_extra_metadata cs } } := by
  unfold pb_feature
  simp [h1, h2, except_bind_ok]

theorem pb_feature_annot (cs : ColumnSchema) (g : Feature)
    (h : pb_feature cs = .ok g) :
    g.annot = { tag := pb_tag cs, extra_metadata := pb_extra_metadata cs } := by
  obtain ⟨f1, f2, _, _, hg⟩ := pb_feature_ok_elim cs g h
  rw [hg]

theorem pb_feature_name (cs : ColumnSchema) (g : Feature)
    (h : pb_feature cs = .ok g) : g.name = cs.name := by
  obtain ⟨f1, f2, h1, h2, hg⟩ := pb_feature_ok_elim cs g h
  have e1 := (set_feature_domain_fields _ _ _ h1).1
  have e2 := (pb_feature_shape_fields _ _ _ h2).1
  rw [hg]
  exact e2.trans e1

theorem sfd_named_none (f : Feature) (cs : ColumnSchema) (s : String)
    (hd : cs.dtype = .named s) (hft : FEATURE_TYPES s = none) :
    set_feature_domain f cs = .ok f := by
  unfold set_feature_domain
  simp [dtype_name, hd, hft, except_bind_ok]

theorem sfd_unnamed (f : Feature) (cs : ColumnSchema)
    (hd : cs.dtype = .unnamed) :
    set_feature_domain f cs
      = .error "TypeError: unsupported dtype for column schema" := by
  unfold set_feature_domain
  simp [dtype_name, hd, except_bind_err]

theorem sfd_int (f : Feature) (cs : ColumnSchema) (s : String) (m : PropsMap)
    (hd : cs.dtype = .named s) (hft : FEATURE_TYPES s = some .INT)
    (hdom : mget cs.properties "domain" = some (.vMap m)) :
    set_feature_domain f cs = .ok { f with
      type := .INT
      int_domain := some
        { name := cs.name
          min := (mget m "min").getD .vNull
          max := (mget m "max").getD .vNull
          is_categorical :=
            cs.tags.contains (.enum .CATEGORICAL)
              || cs.tags.contains (.raw Tags.CATEGORICAL.value) } } := by
  unfold set_feature_domain pb_int_domain
  simp [dtype_name, hd, hft, hdom, except_bind_ok]

theorem sfd_int_nodomain (f : Feature) (cs : ColumnSchema) (s : String)
    (hd : cs.dtype = .named s) (hft : FEATURE_TYPES s = some .INT)
    (hdom : mget cs.properties "domain" = none
      ∨ mget cs.properties "domain" = some .vNull) :
    set_feature_domain f cs = .ok { f with type := .INT } := by
  unfold set_feature_domain pb_int_domain
  cases hdom with
  | inl h0 => simp [dtype_name, hd, hft, h0, except_bind_ok]
  | inr h0 => simp [dtype_name, hd, hft, h0, except_bind_ok]

theorem sfd_float (f : Feature) (cs : ColumnSchema) (s : String) (m : PropsMap)
    (hd : cs.dtype = .named s) (hft : FEATURE_TYPES s = some .FLOAT)
    (hdom : mget cs.properties "domain" = some (.vMap m)) :
    set_feature_domain f cs = .ok { f with
      type := .FLOAT
      float_domain := some
        { name := cs.name
          min := (mget m "min").getD .vNull
          max := (mget m "max").getD .vNull } } := by
  unfold set_feature_domain pb_float_domain
  simp [dtype_name, hd, hft, hdom, except_bind_ok]

theorem sfd_float_nodomain (f : Feature) (cs : ColumnSchema) (s : String)
    (hd : cs.dtype = .named s) (hft : FEATURE_TYPES s = some .FLOAT)
    (hdom : mget cs.properties "domain" = none
      ∨ mget cs.properties "domain" = some .vNull) :
    set_feature_domain f cs = .ok { f with type := .FLOAT } := by
  unfold set_feature_domain pb_float_domain
  cases hdom with
  | inl h0 => simp [dtype_name, hd, hft, h0, except_bind_ok]
  | inr h0 => simp [dtype_name, hd, hft, h0, except_bind_ok]

theorem merlin_properties_packed (f : Feature) (u : String) (props : PropsMap)
    (h : f.annot.extra_metadata = .packed u props) :
    merlin_properties f = .ok
      (if (merlin_domain f).isEmpty then props
       else setKey props "domain" (.vMap (merlin_domain f))) := by
  unfold merlin_properties
  rw [h]
  cases hdm : merlin_domain f with
  | nil => simp [except_bind_ok, except_pure_eq, hdm]
  | cons a t => simp [except_bind_ok, except_pure_eq, hdm]

theorem merlin_column_ok_elim (f : Feature) (c : ColumnSchema)
    (h : merlin_column f = .ok c) :
    ∃ ps, merlin_properties f = .ok ps ∧ c =
      { name := f.name
        tags := f.annot.tag.map TagLike.raw
        properties := (popKey (popKey ps "is_list").2 "is_ragged").2
        dtype := merlin_dtype f
        is_list := (popKey ps "is_list").1.getD (.vBool false)
        is_ragged := (popKey (popKey ps "is_list").2 "is_ragged").1.getD
          (.vBool false) } := by
  unfold merlin_column at h
  cases h1 : merlin_properties f with
  | error e => simp [h1, except_bind_err] at h
  | ok ps =>
      simp only [h1, except_bind_ok] at h
      cases h
      exact ⟨ps, rfl, rfl⟩

theorem merlin_column_ok_intro (f : Feature) (ps : PropsMap)
    (h : merlin_properties f = .ok ps) :
    merlin_column f = .ok
      { name := f.name
        tags := f.annot.tag.map TagLike.raw
        properties := (popKey (popKey ps "is_list").2 "is_ragged").2
        dtype := merlin_dtype f
        is_list := (popKey ps "is_list").1.getD (.vBool false)
        is_ragged := (popKey (popKey ps "is_list").2 "is_ragged").1.getD
          (.vBool false) } := by
  unfold merlin_column
  simp [h, except_bind_ok]

theorem merlin_column_name (f : Feature) (c : ColumnSchema)
    (h : merlin_column f = .ok c) : c.name = f.name := by
  obtain ⟨ps, _, hc⟩ := merlin_column_ok_elim f c h
  rw [hc]

/-- A lemma for the shape stage: a column not marked as a (truthy) list
leaves the feature untouched. -/
theorem pb_feature_shape_not_list (f : Feature) (cs : ColumnSchema)
    (h : pvTruthy cs.is_list = false) : pb_feature_shape f cs = .ok f := by
  unfold pb_feature_shape
  simp [h, except_pure_eq]

/-- C9: converting an internal schema with zero columns yields an external
schema with zero features, and converting an external schema with zero
features yields an internal schema with zero columns. -/
theorem C9_empty_schema :
    from_merlin_schema { column_schemas := [] } = .ok { feature := [] }
      ∧ to_merlin_schema { feature := [] } = .ok { column_schemas := [] } := by
  exact ⟨rfl, rfl⟩

/-- C3: for a feature whose extension slot is not the recognized typed
container (here: with no domain block, to isolate the extension handling),
more than one untyped entry makes `to_internal`'s property unwrapping
raise an error carrying the feature's name, exactly one untyped entry has
its raw value taken as the properties mapping, and zero entries give the
empty mapping. -/
theorem C3_extension_entries (f : Feature) (es : List UntypedEntry)
    (he : f.annot.extra_metadata = .entries es) (hd : merlin_domain f = []) :
    (es.length > 1 →
      merlin_properties f = .error (extraMetadataErr f.name es.length))
    ∧ (∀ e, es = [e] → merlin_properties f = .ok e.value)
    ∧ (es = [] → merlin_properties f = .ok []) := by
  refine ⟨?_, ?_, ?_⟩
  · intro hlen
    unfold merlin_properties
    rw [he]
    simp [hlen, except_bind_err]
  · intro e hes
    subst hes
    unfold merlin_properties
    rw [he]
    simp [except_bind_ok, except_pure_eq, hd]
  · intro hes
    subst hes
    unfold merlin_properties
    rw [he]
    simp [except_bind_ok, except_pure_eq, hd]

/-- A feature holding two untyped extension entries, for exercising the
malformed-extension error. -/
def twoEntryFeature : Feature :=
  { name := "f"
    annot := { extra_metadata := .entries [⟨[]⟩, ⟨[]⟩] } }

theorem C3_extension_entries_witness :
    merlin_properties twoEntryFeature
      = .error (extraMetadataErr twoEntryFeature.name 2) := by
  exact (C3_extension_entries twoEntryFeature [⟨[]⟩, ⟨[]⟩] rfl rfl).1
    (by decide)

/-- A column whose dtype names to `str`: it classifies as neither
int-family nor float-family, yet its name is perfectly determinable. -/
def strCol : ColumnSchema :=
  { name := "a", tags := [], properties := [], dtype := .named "str" }

/-- The feature `from_internal` actually produces for `strCol`: no error
is raised and the feature is left untyped. -/
def strFeature : Feature :=
  { name := "a"
    annot := { tag := []
               extra_metadata := .packed structTypeUrl
                 [("is_list", .vBool false), ("is_ragged", .vBool false)] } }

/-- C2 counterexample: `from_internal` on a schema whose only column has
the non-int, non-float dtype named `str` does not raise; it succeeds and
leaves the feature untyped (type `UNDEFINED`), contradicting the claim
that every such column raises an unsupported-type error. -/
theorem C2_counterexample :
    from_merlin_schema { column_schemas := [("a", strCol)] }
        = .ok { feature := [strFeature] }
      ∧ strFeature.type = .UNDEFINED := by
  exact ⟨rfl, rfl⟩

/-- C2 (amended): `from_internal` raises the unsupported-dtype `TypeError`
exactly when the dtype descriptor cannot be named at all; a dtype that
names to a string outside the int/float families does not raise — the
conversion falls through silently, leaving the feature untyped with no
domain attached. -/
theorem C2_unsupported_dtype (cs : ColumnSchema) :
    (cs.dtype = .unnamed →
      pb_feature cs = .error "TypeError: unsupported dtype for column schema")
    ∧ (∀ s ft, cs.dtype = .named s → FEATURE_TYPES s = none →
        pb_feature cs = .ok ft →
        ft.type = .UNDEFINED ∧ ft.int_domain = none ∧ ft.float_domain = none) := by
  constructor
  · intro hd
    simp [pb_feature, sfd_unnamed _ _ hd, except_bind_err]
  · intro s ft hd hft hok
    obtain ⟨f1, f2, h1, h2, hg⟩ := pb_feature_ok_elim cs ft hok
    rw [sfd_named_none _ _ _ hd hft] at h1
    cases h1
    have hf := pb_feature_shape_fields _ _ _ h2
    rw [hg]
    exact ⟨hf.2.1, hf.2.2.1, hf.2.2.2.1⟩

theorem C2_unsupported_dtype_witness :
    strCol.dtype = .named "str" ∧ FEATURE_TYPES "str" = none
      ∧ pb_feature strCol = .ok strFeature
      ∧ strFeature.type = .UNDEFINED ∧ strFeature.int_domain = none := by
  refine ⟨rfl, rfl, rfl, ?_, ?_⟩
  · exact ((C2_unsupported_dtype strCol).2 "str" strFeature rfl rfl rfl).1
  · exact ((C2_unsupported_dtype strCol).2 "str" strFeature rfl rfl rfl).2.1

/-- A feature in the legacy extension form: one untyped entry whose value
mapping carries an `is_list` key. -/
def legacyFeature : Feature :=
  { name := "f"
    annot := { extra_metadata := .entries [⟨[("is_list", .vBool true)]⟩] } }

/-- What `legacyFeature` looks like after `to_internal` processed it: the
entry's value mapping lost its `is_list` key, because the converter
aliased that mapping as the column's properties and popped the key in
place. -/
def legacyFeaturePost : Feature :=
  { name := "f", annot := { extra_metadata := .entries [⟨[]⟩] } }

/-- C6 counterexample: on the legacy single-untyped-entry path,
`to_internal` mutates its input — after converting `legacyFeature` the
input feature's extension entry no longer equals what it held before. -/
theorem C6_counterexample :
    merlin_column_post legacyFeature = .ok legacyFeaturePost
      ∧ legacyFeaturePost.annot.extra_metadata
          ≠ legacyFeature.annot.extra_metadata := by
  constructor
  · rfl
  · intro h
    simp [legacyFeaturePost, legacyFeature] at h

/-- C6 (amended): `from_internal` is modelled by pure functions of the
column (it builds only fresh objects), and `to_internal` leaves its input
unchanged except on the legacy single-untyped-entry path, where the
entry's value mapping is aliased as the column's properties dict and is
mutated in place (domain merged in, `is_list`/`is_ragged` popped out):
whenever the extension slot is not a one-entry untyped list, the input
feature is observably unchanged after conversion. -/
theorem C6_no_mutation (f g : Feature)
    (hne : ∀ e, f.annot.extra_metadata ≠ .entries [e])
    (h : merlin_column_post f = .ok g) : g = f := by
  cases hp : merlin_properties f with
  | error e =>
      unfold merlin_column_post at h
      rw [hp] at h
      simp [except_bind_err] at h
  | ok ps =>
      unfold merlin_column_post at h
      rw [hp] at h
      simp only [except_bind_ok] at h
      cases hem : f.annot.extra_metadata with
      | packed u props => exact (Except.ok.inj h).symm
      | entries es =>
          cases es with
          | nil => exact (Except.ok.inj h).symm
          | cons e t =>
              cases t with
              | nil => exact absurd hem (hne e)
              | cons e2 t2 => exact (Except.ok.inj h).symm

/-- A feature carrying the recognized typed extension container, for
showing the no-mutation theorem applies. -/
def packedFeature : Feature :=
  { name := "p"
    annot := { extra_metadata :=
                 .packed structTypeUrl [("is_list", .vBool true)] } }

theorem C6_no_mutation_witness :
    merlin_column_post packedFeature = .ok packedFeature := by
  have h0 : merlin_column_post packedFeature = .ok packedFeature := rfl
  have h1 := C6_no_mutation packedFeature packedFeature
    (fun e hh => by simp [packedFeature] at hh) h0
  exact h0

theorem FEATURE_TYPES_cases (s : String) (ft : FeatureType)
    (h : FEATURE_TYPES s = some ft) : ft = .INT ∨ ft = .FLOAT := by
  unfold FEATURE_TYPES at h
  by_cases h1 : s = "int"
  · rw [if_pos h1] at h
    exact Or.inl (Option.some.inj h).symm
  · rw [if_neg h1] at h
    by_cases h2 : s = "uint"
    · rw [if_pos h2] at h
      exact Or.inl (Option.some.inj h).symm
    · rw [if_neg h2] at h
      by_cases h3 : s = "float"
      · rw [if_pos h3] at h
        exact Or.inr (Option.some.inj h).symm
      · rw [if_neg h3] at h
        cases h

/-- C7: an int-family or float-family column with no `domain` property
converts without error into a typed feature carrying no domain block at
all; and for a float-family column with a domain, the emitted
`float_domain` carries only name, min and max (the `FloatDomain` message
has no categorical flag). -/
theorem C7_domain_absent_and_float :
    (∀ (cs : ColumnSchema) (nm : String) (ftype : FeatureType),
      cs.dtype = .named nm → FEATURE_TYPES nm = some ftype →
      mget cs.properties "domain" = none → pvTruthy cs.is_list = false →
      ∃ ft, pb_feature cs = .ok ft ∧ ft.type = ftype
        ∧ ft.int_domain = none ∧ ft.float_domain = none)
    ∧ (∀ (cs : ColumnSchema) (m : PropsMap) (ft : Feature),
      cs.dtype = .named "float" →
      mget cs.properties "domain" = some (.vMap m) →
      pb_feature cs = .ok ft →
      ft.float_domain = some
        { name := cs.name
          min := (mget m "min").getD .vNull
          max := (mget m "max").getD .vNull }) := by
  constructor
  · intro cs nm ftype hd hft hdom hl
    rcases FEATURE_TYPES_cases nm ftype hft with hty | hty
    · subst hty
      have h1 := sfd_int_nodomain { name := cs.name } cs nm hd hft (Or.inl hdom)
      have h2 := pb_feature_shape_not_list { name := cs.name, type := .INT } cs hl
      have h3 := pb_feature_ok_intro cs _ _ h1 h2
      exact ⟨_, h3, rfl, rfl, rfl⟩
    · subst hty
      have h1 := sfd_float_nodomain { name := cs.name } cs nm hd hft (Or.inl hdom)
      have h2 := pb_feature_shape_not_list { name := cs.name, type := .FLOAT } cs hl
      have h3 := pb_feature_ok_intro cs _ _ h1 h2
      exact ⟨_, h3, rfl, rfl, rfl⟩
  · intro cs m ft hd hdom hok
    obtain ⟨f1, f2, h1, h2, hg⟩ := pb_feature_ok_elim cs ft hok
    rw [sfd_float { name := cs.name } cs "float" m hd rfl hdom] at h1
    cases h1
    have hf := pb_feature_shape_fields _ _ _ h2
    rw [hg]
    exact hf.2.2.2.1

/-- An int-family column with no domain property. -/
def csNoDom : ColumnSchema :=
  { name := "n", tags := [], properties := [], dtype := .named "int" }

/-- A float-family column with a numeric domain. -/
def csFloatDom : ColumnSchema :=
  { name := "g", tags := []
    properties := [("domain", .vMap [("min", .vInt 1), ("max", .vInt 5)])]
    dtype := .named "float" }

/-- The feature `from_internal` produces for `csNoDom`. -/
def ftNoDom : Feature :=
  { name := "n", type := .INT
    annot := { tag := []
               extra_metadata := .packed structTypeUrl
                 [("is_list", .vBool false), ("is_ragged", .vBool false)] } }

/-- The feature `from_internal` produces for `csFloatDom`. -/
def ftFloatDom : Feature :=
  { name := "g", type := .FLOAT
    float_domain := some { name := "g", min := .vInt 1, max := .vInt 5 }
    annot := { tag := []
               extra_metadata := .packed structTypeUrl
                 [("is_list", .vBool false), ("is_ragged", .vBool false)] } }

theorem C7_domain_absent_and_float_witness :
    (pb_feature csNoDom = .ok ftNoDom ∧ ftNoDom.int_domain = none
      ∧ ftNoDom.float_domain = none)
    ∧ (pb_feature csFloatDom = .ok ftFloatDom
      ∧ ftFloatDom.float_domain
          = some { name := "g", min := .vInt 1, max := .vInt 5 }) := by
  refine ⟨⟨rfl, ?_, ?_⟩, ⟨rfl, ?_⟩⟩
  · obtain ⟨ft, h1, _, h3, _⟩ :=
      C7_domain_absent_and_float.1 csNoDom "int" .INT rfl rfl rfl rfl
    have he : ft = ftNoDom :=
      Except.ok.inj (h1.symm.trans (rfl : pb_feature csNoDom = .ok ftNoDom))
    exact he ▸ h3
  · obtain ⟨ft, h1, _, _, h4⟩ :=
      C7_domain_absent_and_float.1 csNoDom "int" .INT rfl rfl rfl rfl
    have he : ft = ftNoDom :=
      Except.ok.inj (h1.symm.trans (rfl : pb_feature csNoDom = .ok ftNoDom))
    exact he ▸ h4
  · exact C7_domain_absent_and_float.2 csFloatDom
      [("min", .vInt 1), ("max", .vInt 5)] ftFloatDom rfl rfl rfl

/-- C5: for an integer-family column with a domain property, the emitted
`int_domain` has `is_categorical = true` exactly when the column's tag
collection contains the CATEGORICAL tag in its enum-valued or its
raw-string-valued representation. -/
theorem C5_categorical_flag (cs : ColumnSchema) (m : PropsMap) (ft : Feature)
    (hd : cs.dtype = .named "int" ∨ cs.dtype = .named "uint")
    (hdom : mget cs.properties "domain" = some (.vMap m))
    (hok : pb_feature cs = .ok ft) :
    ∃ d, ft.int_domain = some d
      ∧ (d.is_categorical = true ↔
          (TagLike.enum Tags.CATEGORICAL ∈ cs.tags
            ∨ TagLike.raw Tags.CATEGORICAL.value ∈ cs.tags)) := by
  obtain ⟨f1, f2, h1, h2, hg⟩ := pb_feature_ok_elim cs ft hok
  have hsfd :
      set_feature_domain { name := cs.name } cs = .ok
        { name := cs.name
          type := .INT
          int_domain := some
            { name := cs.name
              min := (mget m "min").getD .vNull
              max := (mget m "max").getD .vNull
              is_categorical :=
                cs.tags.contains (.enum .CATEGORICAL)
                  || cs.tags.contains (.raw Tags.CATEGORICAL.value) } } := by
    rcases hd with h | h
    · exact sfd_int { name := cs.name } cs "int" m h rfl hdom
    · exact sfd_int { name := cs.name } cs "uint" m h rfl hdom
  rw [hsfd] at h1
  cases h1
  have hf := pb_feature_shape_fields _ _ _ h2
  refine ⟨{ name := cs.name
            min := (mget m "min").getD .vNull
            max := (mget m "max").getD .vNull
            is_categorical :=
              cs.tags.contains (.enum .CATEGORICAL)
                || cs.tags.contains (.raw Tags.CATEGORICAL.value) }, ?_, ?_⟩
  · rw [hg]
    exact hf.2.2.1
  · simp

/-- An integer column carrying the enum-valued CATEGORICAL tag and a
numeric domain. -/
def csCat : ColumnSchema :=
  { name := "c", tags := [.enum .CATEGORICAL]
    properties := [("domain", .vMap [("min", .vInt 0), ("max", .vInt 9)])]
    dtype := .named "int" }

/-- The integer domain `from_internal` emits for `csCat`. -/
def dCat : IntDomain :=
  { name := "c", min := .vInt 0, max := .vInt 9, is_categorical := true }

/-- The feature `from_internal` produces for `csCat`. -/
def ftCat : Feature :=
  { name := "c", type := .INT
    int_domain := some dCat
    annot := { tag := ["categorical"]
               extra_metadata := .packed structTypeUrl
                 [("is_list", .vBool false), ("is_ragged", .vBool false)] } }

theorem C5_categorical_flag_witness :
    ftCat.int_domain = some dCat ∧ dCat.is_categorical = true := by
  obtain ⟨d, h1, h2⟩ := C5_categorical_flag csCat
    [("min", .vInt 0), ("max", .vInt 9)] ftCat (Or.inl rfl) rfl rfl
  have hd : d = dCat := by
    have h3 : some d = some dCat :=
      h1.symm.trans (rfl : ftCat.int_domain = some dCat)
    exact Option.some.inj h3
  subst hd
  exact ⟨h1, h2.mpr (Or.inl (by simp [csCat]))⟩

/-- The value-count encoding rule exactly as the specification words it,
as a function of the optional integer bounds: both present, nonzero and
equal gives a fixed shape of that length; both present and nonzero with
min below max gives a value-count range; every other case (absent, zero,
or max below min) gives the `{0, 0}` sentinel. -/
def claimedValueCountShape (a b : Option Int) : ShapeField :=
  match a, b with
  | some x, some y =>
      if x ≠ 0 ∧ y ≠ 0 ∧ x = y then .shape ⟨.vInt x⟩
      else if x ≠ 0 ∧ y ≠ 0 ∧ x < y then .value_count ⟨.vInt x, .vInt y⟩
      else .value_count ⟨.vInt 0, .vInt 0⟩
  | _, _ => .value_count ⟨.vInt 0, .vInt 0⟩

theorem pb_feature_shape_eval (f : Feature) (cs : ColumnSchema)
    (m : PropsMap) (a b : Option Int)
    (hl : pvTruthy cs.is_list = true)
    (hvc : mget cs.properties "value_count" = some (.vMap m)
      ∨ (mget cs.properties "value_count" = none ∧ m = []))
    (ha : mget m "min" = a.map PropValue.vInt)
    (hb : mget m "max" = b.map PropValue.vInt) :
    pb_feature_shape f cs
      = .ok { f with shapeField := claimedValueCountShape a b } := by
  have step :
      ∀ vc : PropsMap, mget vc "min" = a.map PropValue.vInt →
        mget vc "max" = b.map PropValue.vInt →
        (do
          let min_length := mget vc "min"
          let max_length := mget vc "max"
          if pvTruthyO min_length && pvTruthyO max_length then
            let x := min_length.getD .vNull
            let y := max_length.getD .vNull
            if pvEq x y then
              pure { f with shapeField := .shape ⟨x⟩ }
            else do
              let lt ← pvLt x y
              if lt then
                pure { f with shapeField := .value_count ⟨x, y⟩ }
              else
                pure { f with shapeField := .value_count ⟨.vInt 0, .vInt 0⟩ }
          else
            pure { f with shapeField := .value_count ⟨.vInt 0, .vInt 0⟩ }
          : Except String Feature)
        = .ok { f with shapeField := claimedValueCountShape a b } := by
    intro vc hva hvb
    rw [hva, hvb]
    cases a with
    | none =>
        cases b with
        | none => simp [pvTruthyO, claimedValueCountShape, except_pure_eq]
        | some y => simp [pvTruthyO, claimedValueCountShape, except_pure_eq]
    | some x =>
        cases b with
        | none => simp [pvTruthyO, claimedValueCountShape, except_pure_eq]
        | some y =>
            by_cases hx : x = 0
            · simp [pvTruthyO, pvTruthy, hx, claimedValueCountShape,
                except_pure_eq]
            · by_cases hy : y = 0
              · simp [pvTruthyO, pvTruthy, hx, hy, claimedValueCountShape,
                  except_pure_eq]
              · by_cases hxy : x = y
                · simp [pvTruthyO, pvTruthy, hx, hy, hxy, pvEq, pvNum,
                    claimedValueCountShape, except_pure_eq]
                · by_cases hlt : x < y
                  · simp [pvTruthyO, pvTruthy, hx, hy, hxy, hlt, pvEq, pvNum,
                      pvLt, claimedValueCountShape, except_bind_ok,
                      except_pure_eq]
                  · simp [pvTruthyO, pvTruthy, hx, hy, hxy, hlt, pvEq, pvNum,
                      pvLt, claimedValueCountShape, except_bind_ok,
                      except_pure_eq]
  unfold pb_feature_shape
  rw [hl]
  simp only [if_true]
  rcases hvc with h | ⟨h, hm⟩
  · simp only [h, except_bind_ok]
    exact step m ha hb
  · subst hm
    simp only [h, except_bind_ok]
    exact step [] ha hb

/-- C4: for a (truthy) list column whose domain stage succeeded, the
`value_count` property maps onto the wire shape exactly as specified:
both bounds present, nonzero and equal gives a fixed shape; both present,
nonzero, min below max gives a value-count range; anything else (absent,
zero, or inverted bounds) gives the `{0, 0}` sentinel — and the shape
stage never raises in any of these cases. -/
theorem C4_value_count_mapping (cs : ColumnSchema) (f0 : Feature)
    (m : PropsMap) (a b : Option Int)
    (hl : pvTruthy cs.is_list = true)
    (hsd : set_feature_domain { name := cs.name } cs = .ok f0)
    (hvc : mget cs.properties "value_count" = some (.vMap m)
      ∨ (mget cs.properties "value_count" = none ∧ m = []))
    (ha : mget m "min" = a.map PropValue.vInt)
    (hb : mget m "max" = b.map PropValue.vInt) :
    ∃ ft, pb_feature cs = .ok ft
      ∧ ft.shapeField = claimedValueCountShape a b := by
  have hs := pb_feature_shape_eval f0 cs m a b hl hvc ha hb
  have h3 := pb_feature_ok_intro cs f0 _ hsd hs
  exact ⟨_, h3, rfl⟩

/-- A list column with a `{min 3, max 7}` value count. -/
def csC4 : ColumnSchema :=
  { name := "l", tags := []
    properties := [("value_count", .vMap [("min", .vInt 3), ("max", .vInt 7)])]
    dtype := .named "int", is_list := .vBool true }

/-- The feature `from_internal` produces for `csC4`. -/
def ftC4 : Feature :=
  { name := "l", type := .INT
    shapeField := .value_count ⟨.vInt 3, .vInt 7⟩
    annot := { tag := []
               extra_metadata := .packed structTypeUrl
                 [("value_count", .vMap [("min", .vInt 3), ("max", .vInt 7)]),
                  ("is_list", .vBool true), ("is_ragged", .vBool false)] } }

theorem C4_value_count_mapping_witness :
    pb_feature csC4 = .ok ftC4
      ∧ ftC4.shapeField = claimedValueCountShape (some 3) (some 7) := by
  obtain ⟨ft, h1, h2⟩ := C4_value_count_mapping csC4 { name := "l", type := .INT }
    [("min", .vInt 3), ("max", .vInt 7)] (some 3) (some 7)
    rfl rfl (Or.inl rfl) rfl rfl
  have he : ft = ftC4 :=
    Except.ok.inj (h1.symm.trans (rfl : pb_feature csC4 = .ok ftC4))
  exact ⟨he ▸ h1, he ▸ h2⟩

/-- C10: a column's `value_count` property survives the per-column round
trip: the forward mapper packs every property except the reserved
`domain` key into the opaque extension payload, and the reverse mapper
unpacks it — even though the wire shape/value-count field itself is never
read back into the properties. -/
theorem C10_value_count_roundtrip (cs : ColumnSchema) (ft : Feature)
    (c' : ColumnSchema) (v : PropValue)
    (hf : pb_feature cs = .ok ft) (hm : merlin_column ft = .ok c')
    (hv : mget cs.properties "value_count" = some v) :
    mget c'.properties "value_count" = some v := by
  have han := pb_feature_annot cs ft hf
  have hem : ft.annot.extra_metadata = .packed structTypeUrl
      (setKey (setKey (cs.properties.filter fun kv => kv.1 ≠ "domain")
        "is_list" cs.is_list) "is_ragged" cs.is_ragged) := by
    rw [han]
    rfl
  have hprops :
      mget (setKey (setKey (cs.properties.filter fun kv => kv.1 ≠ "domain")
        "is_list" cs.is_list) "is_ragged" cs.is_ragged) "value_count"
        = some v := by
    rw [mget_setKey, if_neg (by decide), mget_setKey, if_neg (by decide),
      mget_filter_ne _ _ _ (by decide)]
    exact hv
  obtain ⟨ps, hps, hc⟩ := merlin_column_ok_elim ft c' hm
  rw [merlin_properties_packed ft _ _ hem] at hps
  have hps' := (Except.ok.inj hps)
  have h2 : mget ps "value_count" = some v := by
    rw [← hps']
    by_cases hd : (merlin_domain ft).isEmpty
    · rw [if_pos hd]
      exact hprops
    · rw [if_neg hd, mget_setKey, if_neg (by decide)]
      exact hprops
  rw [hc]
  show mget (popKey (popKey ps "is_list").2 "is_ragged").2 "value_count"
    = some v
  rw [mget_popKey_snd _ _ _ (by decide), mget_popKey_snd _ _ _ (by decide)]
  exact h2

/-- The column the reverse direction rebuilds from `ftC4`. -/
def colC4back : ColumnSchema :=
  { name := "l", tags := []
    properties :=
      [("value_count", .vMap [("min", .vInt 3), ("max", .vInt 7)])]
    dtype := .named "int"
    is_list := .vBool true, is_ragged := .vBool false }

theorem C10_value_count_roundtrip_witness :
    mget colC4back.properties "value_count"
      = some (.vMap [("min", .vInt 3), ("max", .vInt 7)]) := by
  exact C10_value_count_roundtrip csC4 ftC4 colC4back
    (.vMap [("min", .vInt 3), ("max", .vInt 7)]) rfl rfl rfl

/-- The last feature with a given name, in wire order. -/
def lastNamed (fs : List Feature) (nm : String) : Option Feature :=
  match fs with
  | [] => none
  | f :: rest =>
      match lastNamed rest nm with
      | some g => some g
      | none => if f.name = nm then some f else none

theorem to_merlin_fold (fs : List Feature)
    (acc res : List (String × ColumnSchema))
    (h : fs.foldlM
      (fun acc f => do
        let col ← merlin_column f
        pure (setKeyCS acc col.name col)) acc = .ok res)
    (nm : String) :
    mgetCS res nm =
      match lastNamed fs nm with
      | some g => (merlin_column g).toOption
      | none => mgetCS acc nm := by
  induction fs generalizing acc with
  | nil =>
      simp only [List.foldlM_nil, except_pure_eq] at h
      cases h
      simp [lastNamed]
  | cons f t ih =>
      rw [List.foldlM_cons] at h
      cases hc : merlin_column f with
      | error e =>
          rw [hc] at h
          simp [except_bind_err] at h
      | ok c =>
          rw [hc] at h
          simp only [except_bind_ok, except_pure_eq] at h
          have hrec := ih _ h
          rw [hrec]
          cases hl : lastNamed t nm with
          | some g => simp [lastNamed, hl]
          | none =>
              simp only [lastNamed, hl]
              rw [mgetCS_setKeyCS]
              have hcn : c.name = f.name := merlin_column_name f c hc
              by_cases hnm : f.name = nm
              · rw [hcn, if_pos hnm, hnm]
                simp [hc, Except.toOption]
              · rw [hcn, if_neg hnm]
                simp [hnm]

theorem to_merlin_fold_total (fs : List Feature)
    (acc : List (String × ColumnSchema))
    (hok : ∀ f ∈ fs, ∃ c, merlin_column f = .ok c) :
    ∃ res, fs.foldlM
      (fun acc f => do
        let col ← merlin_column f
        pure (setKeyCS acc col.name col)) acc = .ok res := by
  induction fs generalizing acc with
  | nil => exact ⟨acc, rfl⟩
  | cons g t ih =>
      obtain ⟨c, hc⟩ := hok g (List.mem_cons_self g t)
      obtain ⟨res, hres⟩ := ih (setKeyCS acc c.name c)
        (fun g2 hg => hok g2 (List.mem_cons_of_mem g hg))
      refine ⟨res, ?_⟩
      rw [List.foldlM_cons, hc]
      simp only [except_bind_ok, except_pure_eq]
      exact hres

theorem lastNamed_mem (fs : List Feature) (nm : String) (g : Feature)
    (h : lastNamed fs nm = some g) : g ∈ fs := by
  induction fs with
  | nil => cases h
  | cons f t ih =>
      simp only [lastNamed] at h
      cases hl : lastNamed t nm with
      | some g2 =>
          rw [hl] at h
          cases h
          exact List.mem_cons_of_mem f (ih hl)
      | none =>
          rw [hl] at h
          by_cases hnm : f.name = nm
          · rw [if_pos hnm] at h
            cases h
            exact List.mem_cons_self _ _
          · rw [if_neg hnm] at h
            cases h

theorem fold_all_ok (fs : List Feature) (acc res : List (String × ColumnSchema))
    (h : fs.foldlM
      (fun acc f => do
        let col ← merlin_column f
        pure (setKeyCS acc col.name col)) acc = .ok res) :
    ∀ f ∈ fs, ∃ c, merlin_column f = .ok c := by
  induction fs generalizing acc with
  | nil => intro f hf; cases hf
  | cons f t ih =>
      rw [List.foldlM_cons] at h
      cases hc : merlin_column f with
      | error e =>
          rw [hc] at h
          simp [except_bind_err] at h
      | ok c =>
          rw [hc] at h
          simp only [except_bind_ok, except_pure_eq] at h
          intro g hg
          rcases List.mem_cons.mp hg with hg | hg
          · exact ⟨c, hg ▸ hc⟩
          · exact ih _ h g hg

/-- C8: a duplicate feature name on the reverse conversion silently
overwrites the earlier entry — when `to_internal` succeeds, each name
maps to the column built from the last feature of that name in wire
order — and duplicate names by themselves never cause an error: whenever
every individual feature converts, the whole schema converts. -/
theorem C8_last_wins (ps : ProtoSchema) :
    (∀ (ms : MerlinSchema) (nm : String) (fl : Feature),
      to_merlin_schema ps = .ok ms → lastNamed ps.feature nm = some fl →
      ∃ c, merlin_column fl = .ok c
        ∧ mgetCS ms.column_schemas nm = some c)
    ∧ ((∀ f ∈ ps.feature, ∃ c, merlin_column f = .ok c) →
        ∃ ms, to_merlin_schema ps = .ok ms) := by
  constructor
  · intro ms nm fl h hl
    unfold to_merlin_schema at h
    cases hf : ps.feature.foldlM
      (fun acc f => do
        let col ← merlin_column f
        pure (setKeyCS acc col.name col)) [] with
    | error e =>
        rw [hf] at h
        simp [except_bind_err] at h
    | ok cols =>
        rw [hf] at h
        simp only [except_bind_ok, except_pure_eq] at h
        cases h
        obtain ⟨c, hc⟩ :=
          fold_all_ok ps.feature [] cols hf fl (lastNamed_mem _ _ _ hl)
        refine ⟨c, hc, ?_⟩
        have hlook := to_merlin_fold ps.feature [] cols hf nm
        rw [hl] at hlook
        rw [hlook]
        simp [hc, Except.toOption]
  · intro hok
    obtain ⟨res, hres⟩ := to_merlin_fold_total ps.feature [] hok
    refine ⟨{ column_schemas := res }, ?_⟩
    unfold to_merlin_schema
    rw [hres]
    rfl

/-- First of two features sharing the name `dup`. -/
def dupF1 : Feature := { name := "dup" }

/-- Second of two features sharing the name `dup`; it carries a tag so the
two duplicate features build observably different columns. -/
def dupF2 : Feature := { name := "dup", annot := { tag := ["x"] } }

/-- The external schema holding the two duplicate-name features. -/
def dupSchema : ProtoSchema := { feature := [dupF1, dupF2] }

/-- The column the last duplicate feature builds. -/
def dupCol2 : ColumnSchema :=
  { name := "dup", tags := [.raw "x"], properties := []
    dtype := .unnamed }

theorem C8_last_wins_witness :
    lastNamed dupSchema.feature "dup" = some dupF2
    ∧ mgetCS
        [("dup", dupCol2)]
        "dup" = some dupCol2 := by
  refine ⟨rfl, ?_⟩
  obtain ⟨c, hc, hm⟩ :=
    (C8_last_wins dupSchema).1 { column_schemas := [("dup", dupCol2)] }
      "dup" dupF2 rfl rfl
  have he : c = dupCol2 :=
    Except.ok.inj (hc.symm.trans (rfl : merlin_column dupF2 = .ok dupCol2))
  exact he ▸ hm

theorem tag_raw_roundtrip (l : List String) :
    (l.map TagLike.raw).map
      (fun t => match t with | .enum e => e.value | .raw s => s) = l := by
  induction l with
  | nil => rfl
  | cons a t ih => simp only [List.map_cons, ih]

theorem merlin_domain_int (f : Feature) (d : IntDomain)
    (ht : f.type = .INT) (hd : f.int_domain = some d) :
    merlin_domain f = [("min", d.min), ("max", d.max)] := by
  simp [merlin_domain, ht, hd]

theorem merlin_domain_float (f : Feature) (d : FloatDomain)
    (ht : f.type = .FLOAT) (hd : f.float_domain = some d) :
    merlin_domain f = [("min", d.min), ("max", d.max)] := by
  simp [merlin_domain, ht, hd]

theorem roundtrip_column (cs : ColumnSchema) (ft : Feature)
    (hok : pb_feature cs = .ok ft) :
    ∃ c', merlin_column ft = .ok c'
      ∧ c'.name = cs.name
      ∧ pb_tag c' = pb_tag cs
      ∧ c'.is_list = cs.is_list
      ∧ c'.is_ragged = cs.is_ragged
      ∧ (∀ (nm : String) (m : PropsMap) (mn mx : Int),
          cs.dtype = .named nm → (FEATURE_TYPES nm).isSome →
          mget cs.properties "domain" = some (.vMap m) →
          mget m "min" = some (.vInt mn) → mget m "max" = some (.vInt mx) →
          ∃ dm, mget c'.properties "domain" = some (.vMap dm)
            ∧ mget dm "min" = some (.vInt mn)
            ∧ mget dm "max" = some (.vInt mx)) := by
  have han := pb_feature_annot cs ft hok
  have hnm := pb_feature_name cs ft hok
  have hem : ft.annot.extra_metadata = .packed structTypeUrl
      (setKey (setKey (cs.properties.filter fun kv => kv.1 ≠ "domain")
        "is_list" cs.is_list) "is_ragged" cs.is_ragged) := by
    rw [han]
    rfl
  have hmp := merlin_properties_packed ft _ _ hem
  have hin := merlin_column_ok_intro ft _ hmp
  have hpl : mget
      (if (merlin_domain ft).isEmpty then
        (setKey (setKey (cs.properties.filter fun kv => kv.1 ≠ "domain")
          "is_list" cs.is_list) "is_ragged" cs.is_ragged)
       else setKey
        (setKey (setKey (cs.properties.filter fun kv => kv.1 ≠ "domain")
          "is_list" cs.is_list) "is_ragged" cs.is_ragged)
        "domain" (.vMap (merlin_domain ft))) "is_list" = some cs.is_list := by
    by_cases hd : (merlin_domain ft).isEmpty
    · rw [if_pos hd, mget_setKey, if_neg (by decide), mget_setKey, if_pos rfl]
    · rw [if_neg hd, mget_setKey, if_neg (by decide), mget_setKey,
        if_neg (by decide), mget_setKey, if_pos rfl]
  have hpr : mget
      (if (merlin_domain ft).isEmpty then
        (setKey (setKey (cs.properties.filter fun kv => kv.1 ≠ "domain")
          "is_list" cs.is_list) "is_ragged" cs.is_ragged)
       else setKey
        (setKey (setKey (cs.properties.filter fun kv => kv.1 ≠ "domain")
          "is_list" cs.is_list) "is_ragged" cs.is_ragged)
        "domain" (.vMap (merlin_domain ft))) "is_ragged"
        = some cs.is_ragged := by
    by_cases hd : (merlin_domain ft).isEmpty
    · rw [if_pos hd, mget_setKey, if_pos rfl]
    · rw [if_neg hd, mget_setKey, if_neg (by decide), mget_setKey, if_pos rfl]
  refine ⟨_, hin, ?_, ?_, ?_, ?_, ?_⟩
  · exact hnm
  · show (ft.annot.tag.map TagLike.raw).map
      (fun t => match t with | .enum e => e.value | .raw s => s) = pb_tag cs
    rw [han]
    exact tag_raw_roundtrip (pb_tag cs)
  · show (popKey _ "is_list").1.getD (.vBool false) = cs.is_list
    rw [popKey_fst, hpl]
    rfl
  · show (popKey (popKey _ "is_list").2 "is_ragged").1.getD (.vBool false)
      = cs.is_ragged
    rw [popKey_fst, mget_popKey_snd _ _ _ (by decide), hpr]
    rfl
  · intro nm m mn mx hdty hft hdom hmin hmax
    obtain ⟨f1, f2, h1, h2, hg⟩ := pb_feature_ok_elim cs ft hok
    have hfld := pb_feature_shape_fields _ _ _ h2
    cases hft2 : FEATURE_TYPES nm with
    | none => rw [hft2] at hft; cases hft
    | some ftype =>
        have hdm : merlin_domain ft
            = [("min", .vInt mn), ("max", .vInt mx)] := by
          rcases FEATURE_TYPES_cases nm ftype hft2 with hty | hty
          · subst hty
            rw [sfd_int { name := cs.name } cs nm m hdty hft2 hdom] at h1
            cases h1
            have ht : ft.type = FeatureType.INT := by
              rw [hg]
              exact hfld.2.1
            have hi : ft.int_domain = some
                { name := cs.name
                  min := (mget m "min").getD .vNull
                  max := (mget m "max").getD .vNull
                  is_categorical :=
                    cs.tags.contains (.enum .CATEGORICAL)
                      || cs.tags.contains (.raw Tags.CATEGORICAL.value) } := by
              rw [hg]
              exact hfld.2.2.1
            rw [merlin_domain_int ft _ ht hi]
            simp [hmin, hmax]
          · subst hty
            rw [sfd_float { name := cs.name } cs nm m hdty hft2 hdom] at h1
            cases h1
            have ht : ft.type = FeatureType.FLOAT := by
              rw [hg]
              exact hfld.2.1
            have hi : ft.float_domain = some
                { name := cs.name
                  min := (mget m "min").getD .vNull
                  max := (mget m "max").getD .vNull } := by
              rw [hg]
              exact hfld.2.2.2.1
            rw [merlin_domain_float ft _ ht hi]
            simp [hmin, hmax]
        refine ⟨[("min", .vInt mn), ("max", .vInt mx)], ?_, ?_, ?_⟩
        · show mget (popKey (popKey
            (if (merlin_domain ft).isEmpty then
              (setKey (setKey
                (cs.properties.filter fun kv => kv.1 ≠ "domain")
                "is_list" cs.is_list) "is_ragged" cs.is_ragged)
             else setKey
              (setKey (setKey
                (cs.properties.filter fun kv => kv.1 ≠ "domain")
                "is_list" cs.is_list) "is_ragged" cs.is_ragged)
              "domain" (.vMap (merlin_domain ft)))
            "is_list").2 "is_ragged").2 "domain"
            = some (.vMap [("min", .vInt mn), ("max", .vInt mx)])
          rw [mget_popKey_snd _ _ _ (by decide),
            mget_popKey_snd _ _ _ (by decide)]
          simp only [hdm]
          rw [if_neg (by simp), mget_setKey, if_pos rfl]
        · rfl
        · rfl

theorem mapM_pb_forall2 (cols : List (String × ColumnSchema))
    (fts : List Feature)
    (h : cols.mapM (fun kv => pb_feature kv.2) = .ok fts) :
    List.Forall₂ (fun kv ft => pb_feature kv.2 = .ok ft) cols fts := by
  induction cols generalizing fts with
  | nil =>
      simp only [List.mapM_nil, except_pure_eq] at h
      cases h
      exact List.Forall₂.nil
  | cons kv t ih =>
      rw [List.mapM_cons] at h
      cases hc : pb_feature kv.2 with
      | error e =>
          rw [hc] at h
          simp [except_bind_err] at h
      | ok ft0 =>
          rw [hc] at h
          simp only [except_bind_ok] at h
          cases hrest : t.mapM (fun kv => pb_feature kv.2) with
          | error e =>
              rw [hrest] at h
              simp [except_bind_err] at h
          | ok fts' =>
              rw [hrest] at h
              simp only [except_bind_ok, except_pure_eq] at h
              cases h
              exact List.Forall₂.cons hc (ih fts' hrest)

theorem lastNamed_none (fs : List Feature) (x : String)
    (h : ∀ g ∈ fs, g.name ≠ x) : lastNamed fs x = none := by
  induction fs with
  | nil => rfl
  | cons f t ih =>
      simp only [lastNamed]
      rw [ih (fun g hg => h g (List.mem_cons_of_mem f hg))]
      rw [if_neg (h f (List.mem_cons_self f t))]

theorem forall2_name_map (cols : List (String × ColumnSchema))
    (fts : List Feature)
    (hrel : List.Forall₂ (fun kv ft => pb_feature kv.2 = .ok ft) cols fts)
    (hkeys : ∀ kv ∈ cols, kv.1 = kv.2.name) :
    fts.map Feature.name = cols.map (fun kv => kv.1) := by
  induction cols generalizing fts with
  | nil =>
      cases hrel
      rfl
  | cons kv t ih =>
      cases fts with
      | nil => cases hrel
      | cons ft0 fts' =>
          cases hrel with
          | cons hr hrest =>
              simp only [List.map_cons]
              have hhd : ft0.name = kv.1 :=
                (pb_feature_name kv.2 ft0 hr).trans
                  (hkeys kv (List.mem_cons_self kv t)).symm
              rw [hhd,
                ih fts' hrest (fun kv2 h2 => hkeys kv2 (List.mem_cons_of_mem kv h2))]

theorem lastNamed_unique (cols : List (String × ColumnSchema))
    (fts : List Feature)
    (hrel : List.Forall₂ (fun kv ft => pb_feature kv.2 = .ok ft) cols fts)
    (hkeys : ∀ kv ∈ cols, kv.1 = kv.2.name)
    (hnodup : (cols.map fun kv => kv.1).Nodup) :
    ∀ kv ∈ cols, ∃ ft, pb_feature kv.2 = .ok ft
      ∧ lastNamed fts kv.1 = some ft := by
  induction cols generalizing fts with
  | nil => intro kv hkv; cases hkv
  | cons kv0 t ih =>
      intro kv hkv
      cases fts with
      | nil => cases hrel
      | cons ft0 fts' =>
          cases hrel with
          | cons hr hrest =>
              have hkt : ∀ kv2 ∈ t, kv2.1 = kv2.2.name :=
                fun kv2 h2 => hkeys kv2 (List.mem_cons_of_mem kv0 h2)
              rcases List.mem_cons.mp hkv with hkv0 | hkvt
              · subst hkv0
                refine ⟨ft0, hr, ?_⟩
                simp only [lastNamed]
                have hnone : lastNamed fts' kv.1 = none := by
                  apply lastNamed_none
                  intro g hg hx
                  have hmapeq := forall2_name_map t fts' hrest hkt
                  have hgmem : g.name ∈ t.map (fun kv => kv.1) := by
                    rw [← hmapeq]
                    exact List.mem_map_of_mem Feature.name hg
                  rw [hx] at hgmem
                  exact (List.nodup_cons.mp hnodup).1 hgmem
                rw [hnone]
                rw [if_pos ((pb_feature_name kv.2 ft0 hr).trans
                  (hkeys kv (List.mem_cons_self kv t)).symm)]
              · obtain ⟨ft, hf, hlast⟩ :=
                  ih fts' hrest hkt (List.nodup_cons.mp hnodup).2 kv hkvt
                refine ⟨ft, hf, ?_⟩
                simp only [lastNamed, hlast]

/-- C1: for an internal schema whose keys match column names, with
distinct names, and with every column's dtype int-family or float-family,
converting to the external model and back preserves, for each original
name, the column's name, its tags as string values, its `is_list` and
`is_ragged` values, and the min/max bounds of a `domain` property when
they were originally present. -/
theorem C1_round_trip (s : MerlinSchema) (ext : ProtoSchema) (s' : MerlinSchema)
    (hkeys : ∀ kv ∈ s.column_schemas, kv.1 = kv.2.name)
    (hnodup : (s.column_schemas.map fun kv => kv.1).Nodup)
    (hfam : ∀ kv ∈ s.column_schemas,
      ∃ nm, kv.2.dtype = .named nm ∧ (FEATURE_TYPES nm).isSome)
    (h1 : from_merlin_schema s = .ok ext)
    (h2 : to_merlin_schema ext = .ok s') :
    ∀ kv ∈ s.column_schemas,
      ∃ c', mgetCS s'.column_schemas kv.1 = some c'
        ∧ c'.name = kv.2.name
        ∧ pb_tag c' = pb_tag kv.2
        ∧ c'.is_list = kv.2.is_list
        ∧ c'.is_ragged = kv.2.is_ragged
        ∧ (∀ (m : PropsMap) (mn mx : Int),
            mget kv.2.properties "domain" = some (.vMap m) →
            mget m "min" = some (.vInt mn) →
            mget m "max" = some (.vInt mx) →
            ∃ dm, mget c'.properties "domain" = some (.vMap dm)
              ∧ mget dm "min" = some (.vInt mn)
              ∧ mget dm "max" = some (.vInt mx)) := by
  intro kv hkv
  unfold from_merlin_schema at h1
  cases hmap : s.column_schemas.mapM (fun kv => pb_feature kv.2) with
  | error e =>
      rw [hmap] at h1
      simp [except_bind_err] at h1
  | ok fts =>
      rw [hmap] at h1
      simp only [except_bind_ok] at h1
      cases h1
      have hrel := mapM_pb_forall2 _ _ hmap
      obtain ⟨ft, hpf, hlast⟩ := lastNamed_unique _ _ hrel hkeys hnodup kv hkv
      unfold to_merlin_schema at h2
      cases hfold : ({ feature := fts } : ProtoSchema).feature.foldlM
        (fun acc f => do
          let col ← merlin_column f
          pure (setKeyCS acc col.name col)) [] with
      | error e =>
          rw [hfold] at h2
          simp [except_bind_err] at h2
      | ok cols =>
          rw [hfold] at h2
          simp only [except_bind_ok, except_pure_eq] at h2
          cases h2
          have hlook := to_merlin_fold _ [] cols hfold kv.1
          have hfeat : ({ feature := fts } : ProtoSchema).feature = fts := rfl
          rw [hfeat, hlast] at hlook
          obtain ⟨c', hmc, hname, htags, hl, hr, hdomp⟩ :=
            roundtrip_column kv.2 ft hpf
          refine ⟨c', ?_, hname, htags, hl, hr, ?_⟩
          · show mgetCS cols kv.1 = some c'
            rw [hlook]
            simp [hmc, Except.toOption]
          · intro m mn mx hdom hmin hmax
            obtain ⟨nm, hdty, hft⟩ := hfam kv hkv
            exact hdomp nm m mn mx hdty hft hdom hmin hmax

/-- An integer column with an enum tag, a raw tag and a numeric domain,
for exercising the round trip. -/
def csRT : ColumnSchema :=
  { name := "r", tags := [.enum .CATEGORICAL, .raw "custom"]
    properties := [("domain", .vMap [("min", .vInt 2), ("max", .vInt 8)])]
    dtype := .named "int" }

/-- The one-column internal schema around `csRT`. -/
def sRT : MerlinSchema := { column_schemas := [("r", csRT)] }

/-- The external schema `from_internal` produces for `sRT`. -/
def extRT : ProtoSchema :=
  { feature := [{ name := "r"
                  type := .INT
                  int_domain := some { name := "r", min := .vInt 2
                                       max := .vInt 8, is_categorical := true }
                  annot := { tag := ["categorical", "custom"]
                             extra_metadata := .packed structTypeUrl
                               [("is_list", .vBool false),
                                ("is_ragged", .vBool false)] } }] }

/-- The column the round trip rebuilds for `csRT`. -/
def colRTback : ColumnSchema :=
  { name := "r", tags := [.raw "categorical", .raw "custom"]
    properties := [("domain", .vMap [("min", .vInt 2), ("max", .vInt 8)])]
    dtype := .named "int" }

/-- The internal schema the round trip rebuilds from `sRT`. -/
def sRTback : MerlinSchema := { column_schemas := [("r", colRTback)] }

theorem C1_round_trip_witness :
    mgetCS sRTback.column_schemas "r" = some colRTback
    ∧ pb_tag colRTback = pb_tag csRT
    ∧ colRTback.is_list = csRT.is_list
    ∧ colRTback.is_ragged = csRT.is_ragged
    ∧ mget colRTback.properties "domain"
        = some (.vMap [("min", .vInt 2), ("max", .vInt 8)]) := by
  obtain ⟨c', hm, hname, htags, hl, hr, hdom⟩ :=
    C1_round_trip sRT extRT sRTback
      (by
        intro kv hkv
        rw [show sRT.column_schemas = [("r", csRT)] from rfl,
          List.mem_singleton] at hkv
        subst hkv
        rfl)
      (by simp [sRT])
      (by
        intro kv hkv
        rw [show sRT.column_schemas = [("r", csRT)] from rfl,
          List.mem_singleton] at hkv
        subst hkv
        exact ⟨"int", rfl, rfl⟩)
      rfl rfl ("r", csRT)
      (by
        rw [show sRT.column_schemas = [("r", csRT)] from rfl]
        exact List.mem_singleton.mpr rfl)
  have hc : c' = colRTback := by
    have h0 : some c' = some colRTback :=
      hm.symm.trans (rfl : mgetCS sRTback.column_schemas "r" = some colRTback)
    exact Option.some.inj h0
  subst hc
  obtain ⟨dm, hdm1, hdm2, hdm3⟩ :=
    hdom [("min", .vInt 2), ("max", .vInt 8)] 2 8 rfl rfl rfl
  have hdmv : dm = [("min", .vInt 2), ("max", .vInt 8)] := by
    have h0 : some (PropValue.vMap dm)
        = some (PropValue.vMap [("min", .vInt 2), ("max", .vInt 8)]) :=
      hdm1.symm.trans (rfl : mget colRTback.properties "domain"
        = some (.vMap [("min", .vInt 2), ("max", .vInt 8)]))
    exact PropValue.vMap.inj (Option.some.inj h0)
  exact ⟨hm, htags, hl, hr, hdmv ▸ hdm1⟩
